import Mathlib

/-!
Shallow embedding of the history-tracking core of the licitacoes backend:
the POST /api/processes handler (createProcess), the PUT /api/processes/:id
handler (applyUpdate) in its two source variants (src/unnamed/part_000, the
deployment variant with the logHistory flag, and src/server.js), and the
repair pass of src/ajustar_historico.js (ajustarDatasDeContratacao).
Timestamps are modelled as the ISO strings the source stores; JavaScript
values that can be a number, NaN, a raw string or absent are modelled by JVal.
-/

namespace Licitacoes

/-- Model of a JavaScript value stored in a numeric field: a finite decimal
number `mant × 10 ^ (- scale)` (this system only ever parses decimal text into
numbers, stores them and merges them, so a decimal mantissa/scale pair is a
faithful carrier for the IEEE doubles of the source), NaN, a raw string that
was never parsed, or an absent field. -/
inductive JVal where
  | vnum (mant : Int) (scale : Nat)
  | vnan
  | vstr (s : String)
  | vundef
  deriving DecidableEq

/-- Numeric value of a digit list, most significant first. -/
def digitsVal (ds : List Char) : Nat :=
  ds.foldl (fun a c => a * 10 + (c.toNat - 48)) 0

/-- Model of the JavaScript builtin parseFloat on the decimal notation the
system's form fields use: optional leading spaces, optional sign, digits with
an optional fractional part; trailing characters are ignored, and an input
with no digits yields NaN.  (Exponent notation and Infinity are not modelled;
no field of this system uses them.) -/
def parseFloatModel (s : String) : JVal :=
  let cs := s.toList.dropWhile (fun c => c = ' ')
  let signAndRest : Bool × List Char :=
    match cs with
    | '-' :: r => (true, r)
    | '+' :: r => (false, r)
    | _ => (false, cs)
  let neg := signAndRest.1
  let cs1 := signAndRest.2
  let ip := cs1.takeWhile Char.isDigit
  let rest := cs1.dropWhile Char.isDigit
  let fp : List Char :=
    match rest with
    | '.' :: r => r.takeWhile Char.isDigit
    | _ => []
  if ip.isEmpty ∧ fp.isEmpty then JVal.vnan
  else
    let m : Nat := digitsVal ip * 10 ^ fp.length + digitsVal fp
    JVal.vnum (if neg then -(m : Int) else (m : Int)) fp.length

/-- A structured location: sector plus responsible party. -/
structure Location where
  sector : String
  responsible : String
  deriving DecidableEq

/-- A decoded JavaScript `location` value as the POST handlers see it after
the JSON.parse step: `nullish` is an absent field, undefined or null, on
which a property access throws; `obj s r` is any other decoded value — an
object whose sector/responsible keys may be missing, or a primitive — whose
property reads yield the key's string when present and undefined (`none`)
when not. -/
inductive LocVal where
  | nullish
  | obj (sector : Option String) (responsible : Option String)
  deriving DecidableEq

/-- One phase-history entry (the source's `history` array elements). -/
structure HistEntry where
  fase : String
  startDate : String
  endDate : Option String
  deriving DecidableEq

/-- One location-history entry (the source's `locationHistory` array
elements).  sector and responsible are optional because an entry seeded from
a malformed decoded location carries undefined property reads (`none`); an
entry produced from a well-formed location carries `some` of each string. -/
structure LocEntry where
  sector : Option String
  responsible : Option String
  startDate : String
  endDate : Option String
  deriving DecidableEq

/-- An attachment reference as produced by the upload collaborator. -/
structure Attachment where
  filename : String
  originalname : String
  path : String
  deriving DecidableEq

/-- A stored process record.  A JavaScript record with an absent `history` or
`locationHistory` is modelled by the empty list: both PUT variants normalise
an absent array to `[]` before using it, and nothing else distinguishes the
two.  `location` is `Option` because legacy records may lack it (claim C4). -/
structure Process where
  id : Int := 0
  fase : String := ""
  location : Option Location := none
  value : JVal := JVal.vnum 0 0
  purchasedValue : JVal := JVal.vnum 0 0
  contractDate : Option String := none
  creationDate : String := ""
  attachments : List Attachment := []
  history : List HistEntry := []
  locationHistory : List LocEntry := []
  deriving DecidableEq

/-- The update payload of a PUT request (the source's `req.body` plus
`req.files`), after the boundary layer decoded `location` from JSON text and
normalised the `logHistory` flag.  Numeric fields arrive as raw text. -/
structure Update where
  fase : Option String := none
  location : Option Location := none
  value : Option String := none
  purchasedValue : Option String := none
  contractDate : Option String := none
  logHistory : Bool := false
  files : List Attachment := []
  deriving DecidableEq

/-- The input of a POST request (the source's `req.body` plus `req.files`),
after the boundary layer ran the JSON.parse step on a textual `location`.
The decoded location is a full JavaScript value (`LocVal`): it may be
absent/null, a well-formed object, an object lacking the keys, or a
primitive. -/
structure CreateInput where
  fase : String := ""
  location : LocVal := LocVal.nullish
  value : Option String := none
  purchasedValue : Option String := none
  contractDate : Option String := none
  files : List Attachment := []
  deriving DecidableEq

/-- Close the last phase-history entry: set its endDate to `now`, leaving an
empty history unchanged (the source's guarded `lastHistoryEntry.endDate = now`). -/
def closeLastH (l : List HistEntry) (now : String) : List HistEntry :=
  match l.getLast? with
  | none => l
  | some e => l.dropLast ++ [{ e with endDate := some now }]

/-- Close the last location-history entry, leaving an empty history unchanged. -/
def closeLastL (l : List LocEntry) (now : String) : List LocEntry :=
  match l.getLast? with
  | none => l
  | some e => l.dropLast ++ [{ e with endDate := some now }]

/-- Merge of a numeric field in both PUT variants: the source parses the field
only when it is truthy (`if (updatedData.value) updatedData.value =
parseFloat(updatedData.value)`), then the object spread overwrites the stored
value whenever the key is present — so a missing field keeps the stored value
and an empty-string field overwrites the stored value with the empty string. -/
def mergeNum (old : JVal) (s? : Option String) : JVal :=
  match s? with
  | none => old
  | some s => if s = "" then JVal.vstr "" else parseFloatModel s

/-- Merge of a field that both variants spread without parsing. -/
def mergeRaw (old : JVal) (s? : Option String) : JVal :=
  match s? with
  | none => old
  | some s => JVal.vstr s

/-- Phase-history update of the part_000 PUT handler: gated by logHistory, and
triggered only when `updatedData.fase` is truthy (present and non-empty) and
differs from the stored phase. -/
def nextHistory (p : Process) (u : Update) (now : String) : List HistEntry :=
  if u.logHistory then
    match u.fase with
    | some f =>
        if f ≠ "" ∧ f ≠ p.fase then
          closeLastH p.history now ++ [⟨f, now, none⟩]
        else p.history
    | none => p.history
  else p.history

/-- Location-history update of the part_000 PUT handler.  The comparison reads
the LAST location-history entry (`lastLocationEntry.sector`), not the stored
`location` field; when the location history is empty that read is a property
access on `undefined`, a thrown TypeError, modelled as `none`. -/
def nextLocationHistory (p : Process) (u : Update) (now : String) :
    Option (List LocEntry) :=
  if u.logHistory then
    match u.location with
    | some loc =>
        match p.locationHistory.getLast? with
        | some lastE =>
            if some loc.sector ≠ lastE.sector ∨ some loc.responsible ≠ lastE.responsible then
              some (closeLastL p.locationHistory now ++
                [⟨some loc.sector, some loc.responsible, now, none⟩])
            else some p.locationHistory
        | none => none
    | none => some p.locationHistory
  else some p.locationHistory

/-- The PUT /api/processes/:id handler of src/unnamed/part_000 applied to one
existing process: history tracking gated by logHistory, then the object-spread
merge `{...existingProcess, ...updatedData, id, attachments}` with numeric
fields parsed when truthy and attachments concatenated.  `none` models a
thrown TypeError (request fails, nothing stored). -/
def applyUpdate (p : Process) (u : Update) (now : String) : Option Process :=
  match nextLocationHistory p u now with
  | none => none
  | some locHist =>
      some {
        id := p.id
        fase := u.fase.getD p.fase
        location := u.location.or p.location
        value := mergeNum p.value u.value
        purchasedValue := mergeNum p.purchasedValue u.purchasedValue
        contractDate := u.contractDate.or p.contractDate
        creationDate := p.creationDate
        attachments := p.attachments ++ u.files
        history := nextHistory p u now
        locationHistory := locHist }

/-- Phase-history update of the src/server.js PUT handler: same trigger as
part_000 but with no logHistory gate. -/
def nextHistoryServer (p : Process) (u : Update) (now : String) : List HistEntry :=
  match u.fase with
  | some f =>
      if f ≠ "" ∧ f ≠ p.fase then
        closeLastH p.history now ++ [⟨f, now, none⟩]
      else p.history
  | none => p.history

/-- Location-history update of the src/server.js PUT handler: the comparison
reads `existingProcess.location.sector`, so a record with no `location` field
makes the handler throw (modelled as `none`). -/
def nextLocationHistoryServer (p : Process) (u : Update) (now : String) :
    Option (List LocEntry) :=
  match u.location with
  | some loc =>
      match p.location with
      | some cur =>
          if loc.sector ≠ cur.sector ∨ loc.responsible ≠ cur.responsible then
            some (closeLastL p.locationHistory now ++
              [⟨some loc.sector, some loc.responsible, now, none⟩])
          else some p.locationHistory
      | none => none
  | none => some p.locationHistory

/-- The PUT /api/processes/:id handler of src/server.js applied to one
existing process.  Unlike part_000 it has no logHistory gate, it compares the
incoming location against the stored `location` field, and it never parses
`purchasedValue`. -/
def applyUpdateServer (p : Process) (u : Update) (now : String) : Option Process :=
  match nextLocationHistoryServer p u now with
  | none => none
  | some locHist =>
      some {
        id := p.id
        fase := u.fase.getD p.fase
        location := u.location.or p.location
        value := mergeNum p.value u.value
        purchasedValue := mergeRaw p.purchasedValue u.purchasedValue
        contractDate := u.contractDate.or p.contractDate
        creationDate := p.creationDate
        attachments := p.attachments ++ u.files
        history := nextHistoryServer p u now
        locationHistory := locHist }

/-- Sequential application of PUT updates (part_000 variant), each with its
caller-supplied timestamp; a thrown request aborts the sequence. -/
def applySeq (p : Process) (us : List (Update × String)) : Option Process :=
  match us with
  | [] => some p
  | (u, t) :: rest =>
      match applyUpdate p u t with
      | none => none
      | some q => applySeq q rest

/-- The POST /api/processes handler of src/unnamed/part_000: parses value and
purchasedValue with `parseFloat(x || 0)` (missing or empty text defaults to 0),
and seeds both histories with one open entry.  Seeding the location history
dereferences `newProcess.location.sector`, which throws only on a nullish
decoded location (absent, undefined or null) — then the handler fails before
anything is stored (`none`).  Any other decoded value is seeded with its
(possibly undefined) sector/responsible property reads.  The stored
`location` field keeps the typed shape of the data model: it records the
structured pair when both keys are present and `none` otherwise; the source
stores the raw decoded value, but no operation of the claims reads the
location field of a created process — later reads go through the seeded
location-history entry, which is modelled exactly. -/
def createProcess (inp : CreateInput) (now : String) (id : Int) : Option Process :=
  match inp.location with
  | LocVal.nullish => none
  | LocVal.obj s? r? =>
      some {
        id := id
        fase := inp.fase
        location :=
          match s?, r? with
          | some a, some b => some ⟨a, b⟩
          | _, _ => none
        value :=
          match inp.value with
          | none => JVal.vnum 0 0
          | some s => if s = "" then JVal.vnum 0 0 else parseFloatModel s
        purchasedValue :=
          match inp.purchasedValue with
          | none => JVal.vnum 0 0
          | some s => if s = "" then JVal.vnum 0 0 else parseFloatModel s
        contractDate := inp.contractDate
        creationDate := now
        attachments := inp.files
        history := [⟨inp.fase, now, none⟩]
        locationHistory := [⟨s?, r?, now, none⟩] }

/-- The POST /api/processes handler of src/server.js: `value =
parseFloat(newProcess.value)` with no default (a missing or empty field
yields NaN), purchasedValue is stored unparsed, and the location-history
seed dereferences the location just like part_000 (throwing only on a
nullish decoded location; see `createProcess` on the stored location
field). -/
def createProcessServer (inp : CreateInput) (now : String) (id : Int) :
    Option Process :=
  match inp.location with
  | LocVal.nullish => none
  | LocVal.obj s? r? =>
      some {
        id := id
        fase := inp.fase
        location :=
          match s?, r? with
          | some a, some b => some ⟨a, b⟩
          | _, _ => none
        value :=
          match inp.value with
          | none => JVal.vnan
          | some s => parseFloatModel s
        purchasedValue :=
          match inp.purchasedValue with
          | none => JVal.vundef
          | some s => JVal.vstr s
        contractDate := inp.contractDate
        creationDate := now
        attachments := inp.files
        history := [⟨inp.fase, now, none⟩]
        locationHistory := [⟨s?, r?, now, none⟩] }

/-- The part_000 POST route at the store level: on success the new process is
appended to the stored list, on a thrown request the store is untouched. -/
def postHandler (ps : List Process) (inp : CreateInput) (now : String) (id : Int) :
    List Process × Option Process :=
  match createProcess inp now id with
  | none => (ps, none)
  | some q => (ps ++ [q], some q)

/-- Canonical timestamp of the repair pass.  Models the source expression
`new Date(processo.contractDate + 'T12:00:00Z').toISOString()` for the
calendar-date strings (YYYY-MM-DD) the system stores in contractDate: the
date anchored at midday UTC, rendered as an ISO timestamp. -/
def canonicalContractDate (d : String) : String :=
  d ++ "T12:00:00.000Z"

/-- The per-process body of ajustarDatasDeContratacao (src/ajustar_historico.js):
when the phase is "Contratado", contractDate is truthy and the history is
non-empty, and the last history entry is a "Contratado" entry whose startDate
differs from the canonical timestamp, overwrite that startDate and count the
process as adjusted. -/
def ajustarProcesso (p : Process) : Process × Bool :=
  match p.contractDate, p.history.getLast? with
  | some d, some lastE =>
      if p.fase = "Contratado" ∧ d ≠ "" then
        if lastE.fase = "Contratado" ∧ lastE.startDate ≠ canonicalContractDate d then
          ({ p with history :=
              p.history.dropLast ++ [{ lastE with startDate := canonicalContractDate d }] },
            true)
        else (p, false)
      else (p, false)
  | _, _ => (p, false)

/-- The repair pass over the whole stored list: the adjusted processes in
order, plus the number of processes adjusted. -/
def ajustarDatasDeContratacao (ps : List Process) : List Process × Nat :=
  ((ps.map ajustarProcesso).map Prod.fst, (ps.map ajustarProcesso).countP Prod.snd)

/-- The fields of a phase-history entry that the engine must never alter once
the entry exists: everything except endDate. -/
def frozenH (e : HistEntry) : String × String :=
  (e.fase, e.startDate)

/-- The fields of a location-history entry that the engine must never alter
once the entry exists: everything except endDate. -/
def frozenL (e : LocEntry) : Option String × Option String × String :=
  (e.sector, e.responsible, e.startDate)

/-- Append-only extension of a phase history: the length never shrinks, the
fase/startDate of every pre-existing entry is unchanged, and every
pre-existing non-terminal entry is unchanged wholesale (so the only field of
any pre-existing entry that may change is the terminal entry's endDate). -/
def ExtendsH (l m : List HistEntry) : Prop :=
  l.length ≤ m.length ∧
  (m.map frozenH).take l.length = l.map frozenH ∧
  ∀ i : Nat, i + 1 < l.length → m[i]? = l[i]?

/-- Append-only extension of a location history; see `ExtendsH`. -/
def ExtendsL (l m : List LocEntry) : Prop :=
  l.length ≤ m.length ∧
  (m.map frozenL).take l.length = l.map frozenL ∧
  ∀ i : Nat, i + 1 < l.length → m[i]? = l[i]?

/-- Open-interval invariant of a phase history: the last entry exists and is
open (endDate null), and every non-terminal entry is closed — hence exactly
one entry has endDate = null and it is the last element. -/
def openInvH (l : List HistEntry) : Prop :=
  l.getLast?.map HistEntry.endDate = some none ∧ ∀ e ∈ l.dropLast, e.endDate ≠ none

/-- Open-interval invariant of a location history; see `openInvH`. -/
def openInvL (l : List LocEntry) : Prop :=
  l.getLast?.map LocEntry.endDate = some none ∧ ∀ e ∈ l.dropLast, e.endDate ≠ none

/-- Well-formedness invariants of the spec's data model for a process: both
histories are non-empty with exactly one open interval, at the end; the last
phase entry carries the process's current phase; the process has a current
location and the last location entry carries it. -/
def WellFormed (p : Process) : Prop :=
  openInvH p.history ∧
  openInvL p.locationHistory ∧
  p.history.getLast?.map HistEntry.fase = some p.fase ∧
  p.locationHistory.getLast?.map (fun e => (e.sector, e.responsible)) =
    p.location.map (fun loc => (some loc.sector, some loc.responsible)) ∧
  p.location.isSome = true

/-- Qualification predicate of the repair pass as the code implements it: the
process is in phase "Contratado" with a truthy (present, non-empty)
contractDate, and its non-empty phase history ends in a "Contratado" entry
whose startDate differs from the canonical timestamp of contractDate. -/
def QualRepair (p : Process) : Prop :=
  p.fase = "Contratado" ∧
  ∃ d, p.contractDate = some d ∧ d ≠ "" ∧
    ∃ e, p.history.getLast? = some e ∧ e.fase = "Contratado" ∧
      e.startDate ≠ canonicalContractDate d

instance (l : List HistEntry) : Decidable (openInvH l) := by
  unfold openInvH
  infer_instance

instance (l : List LocEntry) : Decidable (openInvL l) := by
  unfold openInvL
  infer_instance

instance (p : Process) : Decidable (WellFormed p) := by
  unfold WellFormed
  infer_instance

/-! Concrete records used by the witnesses and counterexamples below. -/

/-- A well-formed one-entry process used by the C1 witness. -/
def pW1 : Process :=
  { id := 1, fase := "Draft", location := some ⟨"A", "X"⟩, creationDate := "T0",
    history := [⟨"Draft", "T0", none⟩], locationHistory := [⟨some "A", some "X", "T0", none⟩] }

/-- A phase-and-location update with logHistory on, used by the C1 witness. -/
def uW1 : Update :=
  { fase := some "Review", location := some ⟨"B", "Y"⟩, logHistory := true }

/-- Existing process for the C2 witness. -/
def pW2 : Process :=
  { id := 2, fase := "Draft", history := [⟨"Draft", "T0", none⟩],
    locationHistory := [⟨some "A", some "X", "T0", none⟩] }

/-- Phase-change update for the C2 witness. -/
def uW2 : Update := { fase := some "Review", logHistory := true }

/-- Result of applying uW2 to pW2 at time T1. -/
def qW2 : Process :=
  { id := 2, fase := "Review",
    history := [⟨"Draft", "T0", some "T1"⟩, ⟨"Review", "T1", none⟩],
    locationHistory := [⟨some "A", some "X", "T0", none⟩] }

/-- Existing process for the C2 counterexample. -/
def pC2 : Process := { id := 3, fase := "Draft", history := [⟨"Draft", "T0", none⟩] }

/-- Update whose phase field is present but empty, with logHistory on. -/
def uC2 : Update := { fase := some "", logHistory := true }

/-- Existing process for the C3 witness. -/
def pW3 : Process :=
  { id := 4, fase := "Draft", location := some ⟨"A", "X"⟩, value := JVal.vnum 7 0,
    history := [⟨"Draft", "T0", none⟩], locationHistory := [⟨some "A", some "X", "T0", none⟩] }

/-- Update with differing phase and location but logHistory off. -/
def uW3 : Update :=
  { fase := some "Review", location := some ⟨"B", "Y"⟩, value := some "12.5",
    logHistory := false, files := [⟨"f1", "o1", "p1"⟩] }

/-- Result of applying uW3 to pW3 at time T9. -/
def qW3 : Process :=
  { id := 4, fase := "Review", location := some ⟨"B", "Y"⟩, value := JVal.vnum 125 1,
    attachments := [⟨"f1", "o1", "p1"⟩],
    history := [⟨"Draft", "T0", none⟩], locationHistory := [⟨some "A", some "X", "T0", none⟩] }

/-- A legacy record with no location field but a non-empty location history. -/
def pW4 : Process :=
  { id := 5, fase := "Draft", location := none, history := [⟨"Draft", "T0", none⟩],
    locationHistory := [⟨some "A", some "X", "T0", none⟩] }

/-- Update supplying a location that differs from pW4's last location entry. -/
def uW4 : Update := { location := some ⟨"B", "Y"⟩, logHistory := true }

/-- Update supplying a location equal to pW4's last location entry. -/
def uC4b : Update := { location := some ⟨"A", "X"⟩, logHistory := true }

/-- Well-formed starting process for the C5 witness. -/
def pW5 : Process :=
  { id := 6, fase := "Draft", location := some ⟨"A", "X"⟩, creationDate := "T0",
    history := [⟨"Draft", "T0", none⟩], locationHistory := [⟨some "A", some "X", "T0", none⟩] }

/-- A one-call update sequence for the C5 witness. -/
def usW5 : List (Update × String) := [({ fase := some "Review", logHistory := true }, "T1")]

/-- Result of running usW5 from pW5. -/
def qW5 : Process :=
  { id := 6, fase := "Review", location := some ⟨"A", "X"⟩, creationDate := "T0",
    history := [⟨"Draft", "T0", some "T1"⟩, ⟨"Review", "T1", none⟩],
    locationHistory := [⟨some "A", some "X", "T0", none⟩] }

/-- A Contratado process whose terminal history entry drifted from
contractDate; the repair-targeting example of the spec. -/
def pW6 : Process :=
  { id := 7, fase := "Contratado", contractDate := some "2024-03-15",
    history := [⟨"Contratado", "2024-03-14T23:00:00.000Z", none⟩] }

/-- A Contratado process whose contractDate is present but empty. -/
def pC6 : Process :=
  { id := 8, fase := "Contratado", contractDate := some "",
    history := [⟨"Contratado", "S", none⟩] }

/-- Stored process with a nonzero value, for the C8 counterexample. -/
def pC8 : Process := { id := 9, value := JVal.vnum 5 0 }

/-- Update carrying no numeric field at all. -/
def uC8 : Update := {}

/-- Create input with no value field, for the server-variant C8 fact. -/
def inpC8s : CreateInput := { fase := "Draft", location := LocVal.obj (some "A") (some "X") }

/-- Create input for the C8 witness: value is text, purchasedValue is empty. -/
def inpW8 : CreateInput :=
  { fase := "Draft", location := LocVal.obj (some "A") (some "X"), value := some "2",
    purchasedValue := some "" }

/-- Result of createProcess on inpW8 at T0 with id 11. -/
def PW8 : Process :=
  { id := 11, fase := "Draft", location := some ⟨"A", "X"⟩, value := JVal.vnum 2 0,
    creationDate := "T0", history := [⟨"Draft", "T0", none⟩],
    locationHistory := [⟨some "A", some "X", "T0", none⟩] }

/-- Stored process for the C8 update witness. -/
def pW8 : Process := { id := 10, value := JVal.vnum 3 0 }

/-- Update carrying value as non-empty text. -/
def uW8 : Update := { value := some "4.5" }

/-- Result of applying uW8 to pW8. -/
def qW8 : Process := { id := 10, value := JVal.vnum 45 1 }

/-- Create input with no location, for the C9 witness. -/
def inpW9 : CreateInput := { fase := "Draft", location := LocVal.nullish, value := some "3" }

/-- A pre-existing stored process, to show the store is untouched. -/
def pStore9 : Process := { id := 12 }

/-- A qualifying process for the C10 witness. -/
def pW10 : Process :=
  { id := 13, fase := "Contratado", contractDate := some "2024-03-15",
    history := [⟨"Draft", "T0", some "T1"⟩, ⟨"Contratado", "T1", none⟩],
    locationHistory := [⟨some "A", some "X", "T0", none⟩] }

/-- Result of the repair pass on pW10. -/
def qW10 : Process :=
  { id := 13, fase := "Contratado", contractDate := some "2024-03-15",
    history := [⟨"Draft", "T0", some "T1"⟩, ⟨"Contratado", "2024-03-15T12:00:00.000Z", none⟩],
    locationHistory := [⟨some "A", some "X", "T0", none⟩] }

/-- Existing process for the C3 counterexample on the server.js variant. -/
def pC3 : Process :=
  { id := 14, fase := "Draft", location := some ⟨"A", "X"⟩,
    history := [⟨"Draft", "T0", none⟩],
    locationHistory := [⟨some "A", some "X", "T0", none⟩] }

/-- Update with a differing phase and logHistory explicitly off. -/
def uC3 : Update := { fase := some "Review", logHistory := false }

/-- Create input whose location decoded to an object without the
sector/responsible keys (for instance the JSON text of an object with other
keys, or a primitive). -/
def inpC9m : CreateInput := { fase := "Draft", location := LocVal.obj none none }

/-- Process the part_000 POST stores for inpC9m: seeded with undefined
sector/responsible reads. -/
def qC9m : Process :=
  { id := 41, fase := "Draft", creationDate := "T0",
    history := [⟨"Draft", "T0", none⟩],
    locationHistory := [⟨none, none, "T0", none⟩] }

/-- Process the server.js POST stores for inpC9m (value NaN, purchasedValue
absent, same seeded entry). -/
def qC9ms : Process :=
  { id := 41, fase := "Draft", value := JVal.vnan, purchasedValue := JVal.vundef,
    creationDate := "T0", history := [⟨"Draft", "T0", none⟩],
    locationHistory := [⟨none, none, "T0", none⟩] }

/-- Create input with a well-formed decoded location, for the C9 witness. -/
def inpC9w : CreateInput :=
  { fase := "Draft", location := LocVal.obj (some "A") (some "X"), value := some "3" }

/-! Helper lemmas about closing and appending history entries. -/

theorem dropLast_concat_of_getLastH {l : List HistEntry} {e : HistEntry}
    (h : l.getLast? = some e) : l.dropLast ++ [e] = l :=
  List.dropLast_append_getLast? e (Option.mem_def.mpr h)

theorem dropLast_concat_of_getLastL {l : List LocEntry} {e : LocEntry}
    (h : l.getLast? = some e) : l.dropLast ++ [e] = l :=
  List.dropLast_append_getLast? e (Option.mem_def.mpr h)

theorem closeLastH_of_getLast {l : List HistEntry} {e : HistEntry} (now : String)
    (h : l.getLast? = some e) :
    closeLastH l now = l.dropLast ++ [{ e with endDate := some now }] := by
  unfold closeLastH
  rw [h]

theorem closeLastL_of_getLast {l : List LocEntry} {e : LocEntry} (now : String)
    (h : l.getLast? = some e) :
    closeLastL l now = l.dropLast ++ [{ e with endDate := some now }] := by
  unfold closeLastL
  rw [h]

theorem closeLastH_closed {l : List HistEntry} (now : String)
    (hclosed : ∀ e ∈ l.dropLast, e.endDate ≠ none) :
    ∀ e ∈ closeLastH l now, e.endDate ≠ none := by
  intro e he
  cases hl : l.getLast? with
  | none =>
      have : l = [] := List.getLast?_eq_none_iff.mp hl
      subst this
      simp [closeLastH] at he
  | some e0 =>
      rw [closeLastH_of_getLast now hl] at he
      rcases List.mem_append.mp he with h1 | h1
      · exact hclosed e h1
      · have : e = { e0 with endDate := some now } := by simpa using h1
        subst this
        simp

theorem closeLastL_closed {l : List LocEntry} (now : String)
    (hclosed : ∀ e ∈ l.dropLast, e.endDate ≠ none) :
    ∀ e ∈ closeLastL l now, e.endDate ≠ none := by
  intro e he
  cases hl : l.getLast? with
  | none =>
      have : l = [] := List.getLast?_eq_none_iff.mp hl
      subst this
      simp [closeLastL] at he
  | some e0 =>
      rw [closeLastL_of_getLast now hl] at he
      rcases List.mem_append.mp he with h1 | h1
      · exact hclosed e h1
      · have : e = { e0 with endDate := some now } := by simpa using h1
        subst this
        simp

theorem openInvH_concatNew {l : List HistEntry} (now f : String)
    (hclosed : ∀ e ∈ l.dropLast, e.endDate ≠ none) :
    openInvH (closeLastH l now ++ [⟨f, now, none⟩]) := by
  constructor
  · simp [List.getLast?_concat]
  · intro e he
    rw [List.dropLast_concat] at he
    exact closeLastH_closed now hclosed e he

theorem openInvL_concatNew {l : List LocEntry} (now : String)
    (sec resp : Option String)
    (hclosed : ∀ e ∈ l.dropLast, e.endDate ≠ none) :
    openInvL (closeLastL l now ++ [⟨sec, resp, now, none⟩]) := by
  constructor
  · simp [List.getLast?_concat]
  · intro e he
    rw [List.dropLast_concat] at he
    exact closeLastL_closed now hclosed e he

theorem nextHistory_openInv {p : Process} {u : Update} {now : String}
    (h : openInvH p.history) : openInvH (nextHistory p u now) := by
  unfold nextHistory
  split
  · cases u.fase with
    | none => exact h
    | some f =>
        simp only
        split
        · exact openInvH_concatNew now f h.2
        · exact h
  · exact h

theorem nextLocationHistory_total {p : Process} (u : Update) (now : String)
    (h : openInvL p.locationHistory) :
    ∃ m, nextLocationHistory p u now = some m ∧ openInvL m := by
  cases hlog : u.logHistory with
  | false => exact ⟨_, by simp [nextLocationHistory, hlog], h⟩
  | true =>
      cases hl : u.location with
      | none => exact ⟨_, by simp [nextLocationHistory, hlog, hl], h⟩
      | some loc =>
          obtain ⟨e0, he0, -⟩ := Option.map_eq_some'.mp h.1
          by_cases hc : some loc.sector ≠ e0.sector ∨ some loc.responsible ≠ e0.responsible
          · refine ⟨_, ?_, openInvL_concatNew now (some loc.sector) (some loc.responsible) h.2⟩
            simp only [nextLocationHistory, hlog, hl, he0, if_true]
            rw [if_pos hc]
          · refine ⟨_, ?_, h⟩
            simp only [nextLocationHistory, hlog, hl, he0, if_true]
            rw [if_neg hc]

theorem applyUpdate_elim {p : Process} {u : Update} {now : String} {q : Process}
    (h : applyUpdate p u now = some q) :
    nextLocationHistory p u now = some q.locationHistory ∧
    q.history = nextHistory p u now ∧
    q.id = p.id ∧
    q.fase = u.fase.getD p.fase ∧
    q.location = u.location.or p.location ∧
    q.value = mergeNum p.value u.value ∧
    q.purchasedValue = mergeNum p.purchasedValue u.purchasedValue ∧
    q.contractDate = u.contractDate.or p.contractDate ∧
    q.creationDate = p.creationDate ∧
    q.attachments = p.attachments ++ u.files := by
  unfold applyUpdate at h
  cases hm : nextLocationHistory p u now with
  | none => rw [hm] at h; exact absurd h (by simp)
  | some m =>
      rw [hm] at h
      injection h with h
      subst h
      exact ⟨rfl, rfl, rfl, rfl, rfl, rfl, rfl, rfl, rfl, rfl⟩

theorem applyUpdateServer_elim {p : Process} {u : Update} {now : String} {q : Process}
    (h : applyUpdateServer p u now = some q) :
    nextLocationHistoryServer p u now = some q.locationHistory ∧
    q.history = nextHistoryServer p u now ∧
    q.id = p.id ∧
    q.fase = u.fase.getD p.fase ∧
    q.location = u.location.or p.location ∧
    q.value = mergeNum p.value u.value ∧
    q.purchasedValue = mergeRaw p.purchasedValue u.purchasedValue ∧
    q.contractDate = u.contractDate.or p.contractDate ∧
    q.creationDate = p.creationDate ∧
    q.attachments = p.attachments ++ u.files := by
  unfold applyUpdateServer at h
  cases hm : nextLocationHistoryServer p u now with
  | none => rw [hm] at h; exact absurd h (by simp)
  | some m =>
      rw [hm] at h
      injection h with h
      subst h
      exact ⟨rfl, rfl, rfl, rfl, rfl, rfl, rfl, rfl, rfl, rfl⟩

theorem applyUpdate_total {p : Process} (u : Update) (now : String)
    (h : openInvL p.locationHistory) :
    ∃ q, applyUpdate p u now = some q := by
  obtain ⟨m, hm, -⟩ := nextLocationHistory_total u now h
  cases hq : applyUpdate p u now with
  | none =>
      exfalso
      unfold applyUpdate at hq
      rw [hm] at hq
      exact absurd hq (by simp)
  | some q => exact ⟨q, rfl⟩

/-! Append-only extension: reflexivity, transitivity, and the two step shapes. -/

theorem ExtendsH_refl (l : List HistEntry) : ExtendsH l l := by
  refine ⟨le_refl _, ?_, fun i _ => rfl⟩
  rw [← List.length_map l frozenH]
  exact List.take_length _

theorem ExtendsL_refl (l : List LocEntry) : ExtendsL l l := by
  refine ⟨le_refl _, ?_, fun i _ => rfl⟩
  rw [← List.length_map l frozenL]
  exact List.take_length _

theorem ExtendsH_trans {l1 l2 l3 : List HistEntry}
    (h12 : ExtendsH l1 l2) (h23 : ExtendsH l2 l3) : ExtendsH l1 l3 := by
  obtain ⟨a12, b12, c12⟩ := h12
  obtain ⟨a23, b23, c23⟩ := h23
  refine ⟨le_trans a12 a23, ?_, ?_⟩
  · have h := congrArg (List.take l1.length) b23
    rw [List.take_take, Nat.min_eq_left a12] at h
    rw [h, b12]
  · intro i hi
    rw [c23 i (Nat.lt_of_lt_of_le hi a12), c12 i hi]

theorem ExtendsL_trans {l1 l2 l3 : List LocEntry}
    (h12 : ExtendsL l1 l2) (h23 : ExtendsL l2 l3) : ExtendsL l1 l3 := by
  obtain ⟨a12, b12, c12⟩ := h12
  obtain ⟨a23, b23, c23⟩ := h23
  refine ⟨le_trans a12 a23, ?_, ?_⟩
  · have h := congrArg (List.take l1.length) b23
    rw [List.take_take, Nat.min_eq_left a12] at h
    rw [h, b12]
  · intro i hi
    rw [c23 i (Nat.lt_of_lt_of_le hi a12), c12 i hi]

theorem extendsH_closeAppend (l : List HistEntry) (now f : String) :
    ExtendsH l (closeLastH l now ++ [⟨f, now, none⟩]) := by
  cases hl : l.getLast? with
  | none =>
      have hnil : l = [] := List.getLast?_eq_none_iff.mp hl
      subst hnil
      refine ⟨by simp, by simp, ?_⟩
      intro i hi
      simp at hi
  | some e =>
      have hdecomp : l.dropLast ++ [e] = l := dropLast_concat_of_getLastH hl
      have hclose := closeLastH_of_getLast now hl
      have hlen : l.length = l.dropLast.length + 1 := by
        conv_lhs => rw [← hdecomp]
        simp
      refine ⟨?_, ?_, ?_⟩
      · rw [hclose]
        simp only [List.length_append, List.length_cons, List.length_nil]
        omega
      · rw [hclose, List.map_append, List.map_append]
        have hfz : frozenH { e with endDate := some now } = frozenH e := rfl
        rw [List.map_cons, List.map_nil, hfz]
        have hmapl : l.map frozenH = l.dropLast.map frozenH ++ [frozenH e] := by
          conv_lhs => rw [← hdecomp]
          simp
        rw [← hmapl]
        exact List.take_left' (by simp)
      · intro i hi
        have hi' : i < l.dropLast.length := by
          rw [List.length_dropLast]
          omega
        rw [hclose, List.append_assoc, List.getElem?_append_left hi']
        conv_rhs => rw [← hdecomp]
        rw [List.getElem?_append_left hi']

theorem extendsL_closeAppend (l : List LocEntry) (now : String)
    (sec resp : Option String) :
    ExtendsL l (closeLastL l now ++ [⟨sec, resp, now, none⟩]) := by
  cases hl : l.getLast? with
  | none =>
      have hnil : l = [] := List.getLast?_eq_none_iff.mp hl
      subst hnil
      refine ⟨by simp, by simp, ?_⟩
      intro i hi
      simp at hi
  | some e =>
      have hdecomp : l.dropLast ++ [e] = l := dropLast_concat_of_getLastL hl
      have hclose := closeLastL_of_getLast now hl
      have hlen : l.length = l.dropLast.length + 1 := by
        conv_lhs => rw [← hdecomp]
        simp
      refine ⟨?_, ?_, ?_⟩
      · rw [hclose]
        simp only [List.length_append, List.length_cons, List.length_nil]
        omega
      · rw [hclose, List.map_append, List.map_append]
        have hfz : frozenL { e with endDate := some now } = frozenL e := rfl
        rw [List.map_cons, List.map_nil, hfz]
        have hmapl : l.map frozenL = l.dropLast.map frozenL ++ [frozenL e] := by
          conv_lhs => rw [← hdecomp]
          simp
        rw [← hmapl]
        exact List.take_left' (by simp)
      · intro i hi
        have hi' : i < l.dropLast.length := by
          rw [List.length_dropLast]
          omega
        rw [hclose, List.append_assoc, List.getElem?_append_left hi']
        conv_rhs => rw [← hdecomp]
        rw [List.getElem?_append_left hi']

theorem extendsH_nextHistory (p : Process) (u : Update) (now : String) :
    ExtendsH p.history (nextHistory p u now) := by
  unfold nextHistory
  split
  · cases u.fase with
    | none => exact ExtendsH_refl _
    | some f =>
        simp only
        split
        · exact extendsH_closeAppend p.history now f
        · exact ExtendsH_refl _
  · exact ExtendsH_refl _

theorem extendsL_nextLocationHistory {p : Process} {u : Update} {now : String}
    {m : List LocEntry} (h : nextLocationHistory p u now = some m) :
    ExtendsL p.locationHistory m := by
  cases hlog : u.logHistory with
  | false =>
      simp [nextLocationHistory, hlog] at h
      rw [← h]
      exact ExtendsL_refl _
  | true =>
      cases hl : u.location with
      | none =>
          simp [nextLocationHistory, hlog, hl] at h
          rw [← h]
          exact ExtendsL_refl _
      | some loc =>
          cases he : p.locationHistory.getLast? with
          | none =>
              simp [nextLocationHistory, hlog, hl, he] at h
          | some e0 =>
              by_cases hc : some loc.sector ≠ e0.sector ∨ some loc.responsible ≠ e0.responsible
              · simp [nextLocationHistory, hlog, hl, he, hc] at h
                rw [← h]
                exact extendsL_closeAppend p.locationHistory now (some loc.sector)
                  (some loc.responsible)
              · simp [nextLocationHistory, hlog, hl, he, hc] at h
                rw [← h]
                exact ExtendsL_refl _

theorem applySeq_extends :
    ∀ (us : List (Update × String)) (p q : Process),
      applySeq p us = some q →
      ExtendsH p.history q.history ∧ ExtendsL p.locationHistory q.locationHistory := by
  intro us
  induction us with
  | nil =>
      intro p q h
      injection h with h
      subst h
      exact ⟨ExtendsH_refl _, ExtendsL_refl _⟩
  | cons ut rest ih =>
      intro p q h
      obtain ⟨u, t⟩ := ut
      unfold applySeq at h
      cases hstep : applyUpdate p u t with
      | none => rw [hstep] at h; exact absurd h (by simp)
      | some p1 =>
          rw [hstep] at h
          have h1 := applyUpdate_elim hstep
          have hH : ExtendsH p.history p1.history := by
            rw [h1.2.1]
            exact extendsH_nextHistory p u t
          have hL : ExtendsL p.locationHistory p1.locationHistory :=
            extendsL_nextLocationHistory h1.1
          obtain ⟨ihH, ihL⟩ := ih p1 q h
          exact ⟨ExtendsH_trans hH ihH, ExtendsL_trans hL ihL⟩

/-! Helper lemmas about the repair pass. -/

theorem closeLastH_concat (l : List HistEntry) (e : HistEntry) (now : String) :
    closeLastH (l ++ [e]) now = l ++ [{ e with endDate := some now }] := by
  unfold closeLastH
  rw [List.getLast?_concat]
  simp

theorem ajustarProcesso_fire {p : Process} {d : String} {e : HistEntry}
    (hd : p.contractDate = some d) (he : p.history.getLast? = some e)
    (hfase : p.fase = "Contratado") (hdne : d ≠ "")
    (hef : e.fase = "Contratado") (hes : e.startDate ≠ canonicalContractDate d) :
    ajustarProcesso p =
      ({ p with history :=
          p.history.dropLast ++ [{ e with startDate := canonicalContractDate d }] },
        true) := by
  simp [ajustarProcesso, hd, he, hfase, hdne, hef, hes]

theorem ajustarProcesso_nofire {p : Process} (h : ¬ QualRepair p) :
    ajustarProcesso p = (p, false) := by
  cases hd : p.contractDate with
  | none => simp [ajustarProcesso, hd]
  | some d =>
      cases he : p.history.getLast? with
      | none => simp [ajustarProcesso, hd, he]
      | some e =>
          by_cases hfase : p.fase = "Contratado" ∧ d ≠ ""
          · by_cases hguard : e.fase = "Contratado" ∧ e.startDate ≠ canonicalContractDate d
            · exact absurd ⟨hfase.1, d, hd, hfase.2, e, he, hguard.1, hguard.2⟩ h
            · simp [ajustarProcesso, hd, he, hfase, hguard]
          · simp [ajustarProcesso, hd, he, hfase]

theorem ajustarProcesso_idem (p : Process) :
    ajustarProcesso ((ajustarProcesso p).1) = ((ajustarProcesso p).1, false) := by
  by_cases hq : QualRepair p
  · obtain ⟨hfase, d, hd, hdne, e, he, hef, hes⟩ := hq
    have hres := ajustarProcesso_fire hd he hfase hdne hef hes
    rw [hres]
    apply ajustarProcesso_nofire
    rintro ⟨-, d2, hd2, -, e2, he2, -, hes2⟩
    have hd2' : p.contractDate = some d2 := hd2
    rw [hd] at hd2'
    injection hd2' with hd2'
    subst hd2'
    have he2' : (p.history.dropLast ++
        [{ e with startDate := canonicalContractDate d }]).getLast? = some e2 := he2
    rw [List.getLast?_concat] at he2'
    injection he2' with he2'
    subst he2'
    exact hes2 rfl
  · have hres := ajustarProcesso_nofire hq
    rw [hres]
    exact ajustarProcesso_nofire hq

theorem ajustarProcesso_frame (p : Process) :
    (ajustarProcesso p).1.id = p.id ∧
    (ajustarProcesso p).1.fase = p.fase ∧
    (ajustarProcesso p).1.location = p.location ∧
    (ajustarProcesso p).1.value = p.value ∧
    (ajustarProcesso p).1.purchasedValue = p.purchasedValue ∧
    (ajustarProcesso p).1.contractDate = p.contractDate ∧
    (ajustarProcesso p).1.creationDate = p.creationDate ∧
    (ajustarProcesso p).1.attachments = p.attachments ∧
    (ajustarProcesso p).1.locationHistory = p.locationHistory ∧
    (ajustarProcesso p).1.history.length = p.history.length ∧
    (ajustarProcesso p).1.history.dropLast = p.history.dropLast ∧
    (ajustarProcesso p).1.history.getLast?.map HistEntry.fase =
      p.history.getLast?.map HistEntry.fase ∧
    (ajustarProcesso p).1.history.getLast?.map HistEntry.endDate =
      p.history.getLast?.map HistEntry.endDate := by
  by_cases hq : QualRepair p
  · obtain ⟨hfase, d, hd, hdne, e, he, hef, hes⟩ := hq
    have hres := ajustarProcesso_fire hd he hfase hdne hef hes
    have hdecomp := dropLast_concat_of_getLastH he
    rw [hres]
    refine ⟨rfl, rfl, rfl, rfl, rfl, rfl, rfl, rfl, rfl, ?_, ?_, ?_, ?_⟩
    · conv_rhs => rw [← hdecomp]
      simp
    · simp
    · simp [List.getLast?_concat, he]
    · simp [List.getLast?_concat, he]
  · have hres := ajustarProcesso_nofire hq
    rw [hres]
    exact ⟨rfl, rfl, rfl, rfl, rfl, rfl, rfl, rfl, rfl, rfl, rfl, rfl, rfl⟩

theorem repair_fst_idem (ps : List Process) :
    (ajustarDatasDeContratacao (ajustarDatasDeContratacao ps).1).1 =
      (ajustarDatasDeContratacao ps).1 := by
  unfold ajustarDatasDeContratacao
  induction ps with
  | nil => rfl
  | cons a l ih =>
      simp only [List.map_cons, List.map_map] at ih ⊢
      rw [ajustarProcesso_idem a]
      simp only [List.cons.injEq]
      exact ⟨trivial, ih⟩

theorem repair_cnt_idem (ps : List Process) :
    (ajustarDatasDeContratacao (ajustarDatasDeContratacao ps).1).2 = 0 := by
  unfold ajustarDatasDeContratacao
  rw [List.countP_eq_zero]
  intro r hr
  simp only [List.map_map, List.mem_map] at hr
  obtain ⟨x, -, hx⟩ := hr
  rw [← hx]
  simp [ajustarProcesso_idem x]

/-! The claims. -/

/-- C1: for every process satisfying the well-formedness invariants of the
data model, a PUT update (part_000 variant) with logHistory = true completes,
and afterwards exactly one phase-history entry and exactly one
location-history entry have endDate = null, each being the last element of
its sequence. -/
theorem C1_open_interval_after_update (p : Process) (u : Update) (now : String)
    (hwf : WellFormed p) (hlog : u.logHistory = true) :
    ∃ q, applyUpdate p u now = some q ∧
      openInvH q.history ∧ openInvL q.locationHistory := by
  obtain ⟨m, hm, hminv⟩ := nextLocationHistory_total u now hwf.2.1
  obtain ⟨q, hq⟩ := applyUpdate_total u now hwf.2.1
  have h1 := applyUpdate_elim hq
  refine ⟨q, hq, ?_, ?_⟩
  · rw [h1.2.1]
    exact nextHistory_openInv hwf.1
  · injection (hm.symm.trans h1.1) with h2
    rw [← h2]
    exact hminv

/-- C1 witness: the open-interval invariant holds after a concrete update of
both phase and location on a concrete well-formed process. -/
theorem C1_open_interval_witness :
    WellFormed pW1 ∧ uW1.logHistory = true ∧
    ∃ q, applyUpdate pW1 uW1 "T1" = some q ∧
      openInvH q.history ∧ openInvL q.locationHistory :=
  ⟨by decide, rfl, C1_open_interval_after_update pW1 uW1 "T1" (by decide) rfl⟩

/-- C2 counterexample: logHistory is true, update.phase is present (the empty
string) and differs from the stored phase "Draft", yet the phase history is
left unchanged — nothing is closed and nothing is appended — because the
source tests the incoming phase for truthiness, not presence. -/
theorem C2_phase_present_counterexample :
    uC2.logHistory = true ∧ uC2.fase = some "" ∧ pC2.fase = "Draft" ∧
    ("" : String) ≠ pC2.fase ∧
    (applyUpdate pC2 uC2 "T1").map Process.history = some pC2.history ∧
    pC2.history.length = 1 := by decide

/-- C2 (amended): when logHistory is true and update.phase is present,
non-empty, and different from the stored phase, the update closes the last
phase-history entry with endDate = now — skipping the close without failing
when the history is empty — and appends the new open entry as the new last
element. -/
theorem C2_phase_change_amended (p : Process) (u : Update) (now : String)
    (q : Process) (f : String) (hlog : u.logHistory = true) (hf : u.fase = some f)
    (hne : f ≠ "") (hdiff : f ≠ p.fase) (h : applyUpdate p u now = some q) :
    (p.history = [] → q.history = [⟨f, now, none⟩]) ∧
    ∀ l' e, p.history = l' ++ [e] →
      q.history = l' ++ [{ e with endDate := some now }, ⟨f, now, none⟩] := by
  have h1 := applyUpdate_elim h
  have hq : q.history = closeLastH p.history now ++ [⟨f, now, none⟩] := by
    rw [h1.2.1]
    simp [nextHistory, hlog, hf, hne, hdiff]
  constructor
  · intro hnil
    rw [hq, hnil]
    rfl
  · intro l' e hsplit
    rw [hq, hsplit, closeLastH_concat, List.append_assoc]
    rfl

/-- C2 witness: a concrete phase change closes the single existing entry at T1
and appends the new open entry. -/
theorem C2_phase_change_witness :
    applyUpdate pW2 uW2 "T1" = some qW2 ∧
    qW2.history = [⟨"Draft", "T0", some "T1"⟩, ⟨"Review", "T1", none⟩] :=
  ⟨by decide,
    (C2_phase_change_amended pW2 uW2 "T1" qW2 "Review" rfl rfl (by decide) (by decide)
      (by decide)).2 [] ⟨"Draft", "T0", none⟩ rfl⟩

/-- C3 counterexample: the src/server.js PUT handler has no logHistory gate:
with logHistory = false and a differing non-empty phase it still closes the
last history entry and appends a new one, so the claim fails on that cited
variant.  Traced at src/server.js lines 143-148, where the phase branch runs
unconditionally. -/
theorem C3_server_gate_counterexample :
    uC3.logHistory = false ∧ uC3.fase = some "Review" ∧ pC3.fase = "Draft" ∧
    pC3.history = [⟨"Draft", "T0", none⟩] ∧
    (applyUpdateServer pC3 uC3 "T1").map Process.history =
      some [⟨"Draft", "T0", some "T1"⟩, ⟨"Review", "T1", none⟩] := by decide

/-- C3 (amended): in the part_000 variant of applyUpdate — the variant that
implements the logHistory flag — an update with logHistory = false leaves
both history sequences exactly unchanged even when the phase and the
location both differ, while still merging the non-history fields of the
update into the result.  (The server.js variant has no gate and logs history
unconditionally; see the counterexample.) -/
theorem C3_gated_by_flag (p : Process) (u : Update) (now : String)
    (q : Process) (hlog : u.logHistory = false) (h : applyUpdate p u now = some q) :
    q.history = p.history ∧ q.locationHistory = p.locationHistory ∧
    q.fase = u.fase.getD p.fase ∧ q.location = u.location.or p.location ∧
    (u.value = none → q.value = p.value) ∧
    (∀ s, u.value = some s → s ≠ "" → q.value = parseFloatModel s) ∧
    (u.value = some "" → q.value = JVal.vstr "") ∧
    (u.purchasedValue = none → q.purchasedValue = p.purchasedValue) ∧
    (∀ s, u.purchasedValue = some s → s ≠ "" → q.purchasedValue = parseFloatModel s) ∧
    q.contractDate = u.contractDate.or p.contractDate ∧
    q.attachments = p.attachments ++ u.files ∧
    q.id = p.id ∧ q.creationDate = p.creationDate := by
  obtain ⟨hLocN, hHist, hId, hFase, hLocF, hVal, hPur, hCon, hCre, hAtt⟩ :=
    applyUpdate_elim h
  refine ⟨?_, ?_, hFase, hLocF, ?_, ?_, ?_, ?_, ?_, hCon, hAtt, hId, hCre⟩
  · rw [hHist]
    simp [nextHistory, hlog]
  · have hsame : nextLocationHistory p u now = some p.locationHistory := by
      simp [nextLocationHistory, hlog]
    rw [hsame] at hLocN
    injection hLocN with hLocN
    exact hLocN.symm
  · intro hv
    rw [hVal, hv]
    rfl
  · intro s hs hsne
    rw [hVal, hs]
    simp [mergeNum, hsne]
  · intro hv
    rw [hVal, hv]
    simp [mergeNum]
  · intro hv
    rw [hPur, hv]
    rfl
  · intro s hs hsne
    rw [hPur, hs]
    simp [mergeNum, hsne]

/-- C3 witness: a concrete update with differing phase and location and
logHistory = false leaves both histories unchanged and merges the other
fields. -/
theorem C3_gated_by_flag_witness :
    applyUpdate pW3 uW3 "T9" = some qW3 ∧
    qW3.history = pW3.history ∧ qW3.locationHistory = pW3.locationHistory ∧
    qW3.fase = uW3.fase.getD pW3.fase ∧
    qW3.value = parseFloatModel "12.5" := by
  have happ : applyUpdate pW3 uW3 "T9" = some qW3 := by decide
  have h := C3_gated_by_flag pW3 uW3 "T9" qW3 rfl happ
  exact ⟨happ, h.1, h.2.1, h.2.2.1, h.2.2.2.2.2.1 "12.5" rfl (by decide)⟩

/-- C4 counterexample: with update.location present and the stored location
field absent, the server.js handler fails (the comparison dereferences the
missing location, a thrown TypeError, modelled as `none`) instead of
appending; and the part_000 handler, given a supplied location equal to the
last location-history entry, appends nothing.  Both contradict the claim that
the operation cannot fail and always appends a new entry. -/
theorem C4_missing_location_counterexample :
    pW4.location = none ∧ uW4.location = some ⟨"B", "Y"⟩ ∧
    applyUpdateServer pW4 uW4 "T1" = none ∧
    uC4b.location = some ⟨"A", "X"⟩ ∧
    (applyUpdate pW4 uC4b "T1").map Process.locationHistory =
      some pW4.locationHistory := by decide

/-- C4 (amended): when update.location is present and the stored location
field is absent, the server.js variant fails; the part_000 variant never
consults the stored location field — with logHistory = true and a non-empty
location history it succeeds, appending a new location-history entry exactly
when the supplied location differs from the last entry's sector or
responsible. -/
theorem C4_missing_location_amended (p : Process) (u : Update) (now : String)
    (loc : Location) (e : LocEntry) (hnone : p.location = none)
    (hloc : u.location = some loc) (hlog : u.logHistory = true)
    (hlast : p.locationHistory.getLast? = some e) :
    applyUpdateServer p u now = none ∧
    ∃ q, applyUpdate p u now = some q ∧
      q.locationHistory =
        (if some loc.sector ≠ e.sector ∨ some loc.responsible ≠ e.responsible then
          closeLastL p.locationHistory now ++
            [⟨some loc.sector, some loc.responsible, now, none⟩]
        else p.locationHistory) := by
  constructor
  · have hns : nextLocationHistoryServer p u now = none := by
      simp [nextLocationHistoryServer, hloc, hnone]
    unfold applyUpdateServer
    rw [hns]
  · have hn : nextLocationHistory p u now =
        some (if some loc.sector ≠ e.sector ∨ some loc.responsible ≠ e.responsible then
          closeLastL p.locationHistory now ++
            [⟨some loc.sector, some loc.responsible, now, none⟩]
        else p.locationHistory) := by
      by_cases hc : some loc.sector ≠ e.sector ∨ some loc.responsible ≠ e.responsible
      · simp [nextLocationHistory, hlog, hloc, hlast, hc]
      · simp [nextLocationHistory, hlog, hloc, hlast, hc]
    cases hq : applyUpdate p u now with
    | none =>
        unfold applyUpdate at hq
        rw [hn] at hq
        exact absurd hq (by simp)
    | some q =>
        have h1 := applyUpdate_elim hq
        refine ⟨q, rfl, ?_⟩
        have h2 := h1.1
        rw [hn] at h2
        injection h2 with h2
        exact h2.symm

/-- C4 witness: on the concrete legacy record with no location field, the
server.js handler fails while the part_000 handler succeeds and appends. -/
theorem C4_missing_location_witness :
    applyUpdateServer pW4 uW4 "T2" = none ∧
    ∃ q, applyUpdate pW4 uW4 "T2" = some q ∧
      q.locationHistory =
        (if (some "B" : Option String) ≠ some "A" ∨
            (some "Y" : Option String) ≠ some "X" then
          closeLastL pW4.locationHistory "T2" ++ [⟨some "B", some "Y", "T2", none⟩]
        else pW4.locationHistory) :=
  C4_missing_location_amended pW4 uW4 "T2" ⟨"B", "Y"⟩ ⟨some "A", some "X", "T0", none⟩
    rfl rfl rfl rfl

/-- C5: starting from a well-formed process, any sequence of applyUpdate calls
yields phase and location histories of non-decreasing length; the
fase/sector/responsible/startDate of every pre-existing entry is unchanged,
and every pre-existing closed (non-terminal) entry is unchanged wholesale, so
the only mutation to a pre-existing entry is the endDate of the entry that was
the open last one at call time. -/
theorem C5_append_only (p : Process) (us : List (Update × String)) (q : Process)
    (hwf : WellFormed p) (h : applySeq p us = some q) :
    p.history.length ≤ q.history.length ∧
    p.locationHistory.length ≤ q.locationHistory.length ∧
    ExtendsH p.history q.history ∧ ExtendsL p.locationHistory q.locationHistory := by
  obtain ⟨hH, hL⟩ := applySeq_extends us p q h
  exact ⟨hH.1, hL.1, hH, hL⟩

/-- C5 witness: a concrete one-call sequence from a concrete well-formed
process extends both histories append-only. -/
theorem C5_append_only_witness :
    WellFormed pW5 ∧ applySeq pW5 usW5 = some qW5 ∧
    pW5.history.length ≤ qW5.history.length ∧
    ExtendsH pW5.history qW5.history ∧ ExtendsL pW5.locationHistory qW5.locationHistory := by
  have hwf : WellFormed pW5 := by decide
  have happ : applySeq pW5 usW5 = some qW5 := by decide
  have h := C5_append_only pW5 usW5 qW5 hwf happ
  exact ⟨hwf, happ, h.1, h.2.2.1, h.2.2.2⟩

/-- C6 counterexample: a "Contratado" process whose contractDate is present
but empty, with a non-empty history ending in a "Contratado" entry whose
startDate differs from the canonical timestamp of that contractDate.  The
claim's conditions all hold, yet the pass corrects nothing and counts
nothing, because the source tests contractDate for truthiness. -/
theorem C6_repair_targeting_counterexample :
    pC6.fase = "Contratado" ∧ pC6.contractDate = some "" ∧
    pC6.history ≠ [] ∧
    pC6.history.getLast?.map HistEntry.fase = some "Contratado" ∧
    pC6.history.getLast?.map HistEntry.startDate = some "S" ∧
    ("S" : String) ≠ canonicalContractDate "" ∧
    ajustarProcesso pC6 = (pC6, false) := by decide

/-- C6 (amended): the repair pass counts a process as corrected exactly when
its phase is "Contratado", its contractDate is present and non-empty, its
phase history is non-empty, and the last history entry is a "Contratado"
entry whose startDate differs from the canonical midday-UTC timestamp of
contractDate; in that case it overwrites that startDate with the canonical
timestamp, and otherwise it leaves the process untouched. -/
theorem C6_repair_targeting_amended (p : Process) :
    ((ajustarProcesso p).2 = true ↔ QualRepair p) ∧
    (∀ d e, p.contractDate = some d → p.history.getLast? = some e → QualRepair p →
      (ajustarProcesso p).1.history =
        p.history.dropLast ++ [{ e with startDate := canonicalContractDate d }]) ∧
    (¬ QualRepair p → (ajustarProcesso p).1 = p) := by
  by_cases hq : QualRepair p
  · obtain ⟨hfase, d, hd, hdne, e, he, hef, hes⟩ := hq
    have hres := ajustarProcesso_fire hd he hfase hdne hef hes
    refine ⟨?_, ?_, ?_⟩
    · rw [hres]
      simp only [true_iff]
      exact ⟨hfase, d, hd, hdne, e, he, hef, hes⟩
    · intro d2 e2 hd2 he2 hq3
      rw [hd] at hd2
      injection hd2 with hd2
      subst hd2
      rw [he] at he2
      injection he2 with he2
      subst he2
      rw [hres]
    · intro hnq
      exact absurd ⟨hfase, d, hd, hdne, e, he, hef, hes⟩ hnq
  · have hres := ajustarProcesso_nofire hq
    refine ⟨?_, ?_, fun _ => by rw [hres]⟩
    · rw [hres]
      simp [hq]
    · intro d2 e2 _ _ hq2
      exact absurd hq2 hq

/-- C6 witness: the spec's repair-targeting example — contractDate 2024-03-15
with a drifted terminal entry — is corrected to the midday-UTC ISO form and
counted. -/
theorem C6_repair_targeting_witness :
    ((ajustarProcesso pW6).2 = true ↔ QualRepair pW6) ∧
    (ajustarProcesso pW6).1.history =
      pW6.history.dropLast ++
        [{ fase := "Contratado", startDate := canonicalContractDate "2024-03-15",
           endDate := none }] ∧
    (ajustarProcesso pW6).2 = true := by
  have h := C6_repair_targeting_amended pW6
  have hqual : QualRepair pW6 :=
    ⟨rfl, "2024-03-15", rfl, by decide,
      ⟨"Contratado", "2024-03-14T23:00:00.000Z", none⟩, by decide, rfl, by decide⟩
  exact ⟨h.1,
    h.2.1 "2024-03-15" ⟨"Contratado", "2024-03-14T23:00:00.000Z", none⟩ rfl
      (by decide) hqual,
    h.1.mpr hqual⟩

/-- C7: the repair pass is idempotent — a second run over the output of a
first run corrects nothing (count 0) and returns the data unchanged. -/
theorem C7_repair_idempotent (ps : List Process) :
    ajustarDatasDeContratacao (ajustarDatasDeContratacao ps).1 =
      ((ajustarDatasDeContratacao ps).1, 0) := by
  have h1 := repair_fst_idem ps
  have h2 := repair_cnt_idem ps
  exact Prod.ext h1 h2

/-- C8 counterexample: in applyUpdate a missing numeric field is not set to
0.0 — the stored value 5 is retained — and in the server.js createProcess a
missing value yields NaN, not 0.0. -/
theorem C8_numeric_default_counterexample :
    uC8.value = none ∧
    (applyUpdate pC8 uC8 "T1").map Process.value = some (JVal.vnum 5 0) ∧
    JVal.vnum 5 0 ≠ JVal.vnum 0 0 ∧
    inpC8s.value = none ∧
    (createProcessServer inpC8s "T0" 21).map Process.value = some JVal.vnan ∧
    JVal.vnan ≠ JVal.vnum 0 0 := by decide

/-- C8 (amended): in the part_000 createProcess every numeric field arriving
as text is parsed to floating point, with a missing or empty field defaulting
to 0.0; in applyUpdate a numeric field is parsed before the merge only when
it arrives as non-empty text, and a missing numeric field retains the
existing stored value in the result. -/
theorem C8_numeric_parse_amended :
    (∀ inp now id P, createProcess inp now id = some P →
      ((inp.value = none ∨ inp.value = some "") → P.value = JVal.vnum 0 0) ∧
      (∀ s, inp.value = some s → s ≠ "" → P.value = parseFloatModel s) ∧
      ((inp.purchasedValue = none ∨ inp.purchasedValue = some "") →
        P.purchasedValue = JVal.vnum 0 0) ∧
      (∀ s, inp.purchasedValue = some s → s ≠ "" →
        P.purchasedValue = parseFloatModel s)) ∧
    (∀ p u now q, applyUpdate p u now = some q →
      (∀ s, u.value = some s → s ≠ "" → q.value = parseFloatModel s) ∧
      (u.value = none → q.value = p.value) ∧
      (∀ s, u.purchasedValue = some s → s ≠ "" → q.purchasedValue = parseFloatModel s) ∧
      (u.purchasedValue = none → q.purchasedValue = p.purchasedValue)) := by
  constructor
  · intro inp now id P hP
    cases hloc : inp.location with
    | nullish =>
        unfold createProcess at hP
        rw [hloc] at hP
        exact absurd hP (by simp)
    | obj s? r? =>
        unfold createProcess at hP
        rw [hloc] at hP
        injection hP with hP
        subst hP
        refine ⟨?_, ?_, ?_, ?_⟩
        · rintro (hv | hv) <;> simp [hv]
        · intro s hs hsne
          simp [hs, hsne]
        · rintro (hv | hv) <;> simp [hv]
        · intro s hs hsne
          simp [hs, hsne]
  · intro p u now q hq
    obtain ⟨-, -, -, -, -, hVal, hPur, -, -, -⟩ := applyUpdate_elim hq
    refine ⟨?_, ?_, ?_, ?_⟩
    · intro s hs hsne
      rw [hVal, hs]
      simp [mergeNum, hsne]
    · intro hv
      rw [hVal, hv]
      rfl
    · intro s hs hsne
      rw [hPur, hs]
      simp [mergeNum, hsne]
    · intro hv
      rw [hPur, hv]
      rfl

/-- C8 witness: concrete parse-and-default behaviour — text "2" parses, empty
purchasedValue defaults to 0, text "4.5" parses in an update. -/
theorem C8_numeric_parse_witness :
    createProcess inpW8 "T0" 11 = some PW8 ∧ PW8.value = parseFloatModel "2" ∧
    PW8.purchasedValue = JVal.vnum 0 0 ∧
    applyUpdate pW8 uW8 "T1" = some qW8 ∧ qW8.value = parseFloatModel "4.5" := by
  have hcr : createProcess inpW8 "T0" 11 = some PW8 := by decide
  have hap : applyUpdate pW8 uW8 "T1" = some qW8 := by decide
  have h := C8_numeric_parse_amended
  exact ⟨hcr, (h.1 inpW8 "T0" 11 PW8 hcr).2.1 "2" rfl (by decide),
    (h.1 inpW8 "T0" 11 PW8 hcr).2.2.1 (Or.inr rfl),
    hap, (h.2 pW8 uW8 "T1" qW8 hap).1 "4.5" rfl (by decide)⟩

/-- C9 counterexample: a location that decodes to a non-nullish value without
sector/responsible keys does not make createProcess fail: in both variants
the process is built with undefined property reads in the seeded
location-history entry, and the POST handler stores it — contradicting the
claim that an input whose location cannot be decoded to an object with
sector and responsible fails before any process is stored. -/
theorem C9_decode_counterexample :
    inpC9m.location = LocVal.obj none none ∧
    createProcess inpC9m "T0" 41 = some qC9m ∧
    qC9m.locationHistory = [⟨none, none, "T0", none⟩] ∧
    createProcessServer inpC9m "T0" 41 = some qC9ms ∧
    postHandler [pStore9] inpC9m "T0" 41 = ([pStore9, qC9m], some qC9m) := by decide

/-- C9 (amended): createProcess fails with an error before any process is
stored exactly when the decoded location is nullish (field absent, undefined
or null): seeding the location history dereferences location.sector, which
throws only on nullish values.  Any other decoded location — even one
lacking the sector or responsible keys — does not fail: in both variants the
process is stored, its location history seeded with the (possibly undefined)
property reads. -/
theorem C9_create_location_amended (inp : CreateInput) (now : String) (id : Int)
    (ps : List Process) :
    (inp.location = LocVal.nullish →
      createProcess inp now id = none ∧ createProcessServer inp now id = none ∧
      postHandler ps inp now id = (ps, none)) ∧
    (∀ s? r?, inp.location = LocVal.obj s? r? →
      ∃ q, createProcess inp now id = some q ∧
        q.locationHistory = [⟨s?, r?, now, none⟩] ∧
        postHandler ps inp now id = (ps ++ [q], some q) ∧
        ∃ q2, createProcessServer inp now id = some q2 ∧
          q2.locationHistory = [⟨s?, r?, now, none⟩]) := by
  constructor
  · intro h
    have h1 : createProcess inp now id = none := by
      unfold createProcess
      rw [h]
    have h2 : createProcessServer inp now id = none := by
      unfold createProcessServer
      rw [h]
    refine ⟨h1, h2, ?_⟩
    unfold postHandler
    rw [h1]
  · intro s? r? h
    cases hc : createProcess inp now id with
    | none =>
        exfalso
        unfold createProcess at hc
        rw [h] at hc
        exact absurd hc (by simp)
    | some q =>
        refine ⟨q, rfl, ?_, ?_, ?_⟩
        · unfold createProcess at hc
          rw [h] at hc
          injection hc with hc
          rw [← hc]
        · unfold postHandler
          rw [hc]
        · cases hcs : createProcessServer inp now id with
          | none =>
              exfalso
              unfold createProcessServer at hcs
              rw [h] at hcs
              exact absurd hcs (by simp)
          | some q2 =>
              refine ⟨q2, rfl, ?_⟩
              unfold createProcessServer at hcs
              rw [h] at hcs
              injection hcs with hcs
              rw [← hcs]

/-- C9 witness: a concrete nullish-location input fails in both variants
leaving a one-element store untouched, and a concrete well-formed-location
input is stored with its seeded entry. -/
theorem C9_create_location_witness :
    inpW9.location = LocVal.nullish ∧
    createProcess inpW9 "T0" 31 = none ∧
    createProcessServer inpW9 "T0" 31 = none ∧
    postHandler [pStore9] inpW9 "T0" 31 = ([pStore9], none) ∧
    ∃ q, createProcess inpC9w "T0" 32 = some q ∧
      q.locationHistory = [⟨some "A", some "X", "T0", none⟩] ∧
      postHandler [pStore9] inpC9w "T0" 32 = ([pStore9] ++ [q], some q) ∧
      ∃ q2, createProcessServer inpC9w "T0" 32 = some q2 ∧
        q2.locationHistory = [⟨some "A", some "X", "T0", none⟩] := by
  obtain ⟨ha, hb, hc⟩ := (C9_create_location_amended inpW9 "T0" 31 [pStore9]).1 rfl
  exact ⟨rfl, ha, hb, hc,
    (C9_create_location_amended inpC9w "T0" 32 [pStore9]).2 (some "A") (some "X") rfl⟩

/-- C10: the repair pass preserves the number and order of processes and, per
process, every field except the phase history, where only the terminal
entry's startDate may change: the identifier, all scalar fields, the
attachments, the whole location history, the history length, all non-terminal
history entries, and the terminal entry's fase and endDate are identical. -/
theorem C10_repair_frame (ps : List Process) :
    (ajustarDatasDeContratacao ps).1.length = ps.length ∧
    ∀ (i : Nat) (p' q' : Process), ps[i]? = some p' →
      (ajustarDatasDeContratacao ps).1[i]? = some q' →
      q'.id = p'.id ∧ q'.fase = p'.fase ∧ q'.location = p'.location ∧
      q'.value = p'.value ∧ q'.purchasedValue = p'.purchasedValue ∧
      q'.contractDate = p'.contractDate ∧ q'.creationDate = p'.creationDate ∧
      q'.attachments = p'.attachments ∧ q'.locationHistory = p'.locationHistory ∧
      q'.history.length = p'.history.length ∧
      q'.history.dropLast = p'.history.dropLast ∧
      q'.history.getLast?.map HistEntry.fase = p'.history.getLast?.map HistEntry.fase ∧
      q'.history.getLast?.map HistEntry.endDate =
        p'.history.getLast?.map HistEntry.endDate := by
  constructor
  · simp [ajustarDatasDeContratacao]
  · intro i p' q' hp hq
    have hmap : (ajustarDatasDeContratacao ps).1[i]? = some ((ajustarProcesso p').1) := by
      simp [ajustarDatasDeContratacao, List.getElem?_map, hp]
    rw [hmap] at hq
    injection hq with hq
    subst hq
    exact ajustarProcesso_frame p'

/-- C10 witness: on a concrete one-element list whose process is corrected,
everything except the terminal history entry's startDate is preserved. -/
theorem C10_repair_frame_witness :
    (ajustarDatasDeContratacao [pW10]).1.length = [pW10].length ∧
    (ajustarDatasDeContratacao [pW10]).1[0]? = some qW10 ∧
    qW10.id = pW10.id ∧ qW10.locationHistory = pW10.locationHistory ∧
    qW10.history.dropLast = pW10.history.dropLast ∧
    qW10.history.getLast?.map HistEntry.endDate =
      pW10.history.getLast?.map HistEntry.endDate := by
  have hq : (ajustarDatasDeContratacao [pW10]).1[0]? = some qW10 := by decide
  have h := C10_repair_frame [pW10]
  obtain ⟨a1, a2, a3, a4, a5, a6, a7, a8, a9, a10, a11, a12, a13⟩ :=
    h.2 0 pW10 qW10 rfl hq
  exact ⟨h.1, hq, a1, a9, a11, a13⟩

end Licitacoes
